import Mathlib

/-!
Verification of the merge-queue command layer of the gastown repository
(`internal/cmd/mq.go`) against its natural-language specification.

Strings are embedded as Lean `String` (a structure over `List Char`); the
core text algorithms (splitting, trimming, the issue-token pattern) are
transcribed from the Go source onto `List Char`.  Whitespace and case
mapping are modelled on the ASCII / Latin-1 range actually exercised by
the program (Go `unicode.IsSpace`, `strings.ToLower`).
-/

namespace Gastown

/-- Character class of Go `unicode.IsSpace` restricted to the Latin-1 range
(space, tab, newline, vertical tab, form feed, carriage return, NEL, NBSP). -/
def isSpaceChar (c : Char) : Bool :=
  c == ' ' || c == '\t' || c == '\n' || c == '\x0b' || c == '\x0c' || c == '\r' ||
  c == '\u0085' || c == ' '

/-- Go `strings.TrimSpace`, left side: drop leading whitespace. -/
def trimLeftW (l : List Char) : List Char := l.dropWhile isSpaceChar

/-- Go `strings.TrimSpace`, right side: drop trailing whitespace. -/
def trimRightW (l : List Char) : List Char := (l.reverse.dropWhile isSpaceChar).reverse

/-- Go `strings.TrimSpace` on a character list. -/
def trimSpaceL (l : List Char) : List Char := trimRightW (trimLeftW l)

/-- ASCII lowercasing, the fragment of Go `strings.ToLower` the program uses. -/
def toLowerL (l : List Char) : List Char := l.map Char.toLower

/-- Go `strings.HasPrefix` on character lists. -/
def hasPrefixL : List Char → List Char → Bool
  | [], _ => true
  | _ :: _, [] => false
  | p :: ps, x :: xs => p == x && hasPrefixL ps xs

/-- Split at the first occurrence of `c` (Go `strings.Index` plus slicing):
`none` when `c` does not occur, otherwise the parts before and after it. -/
def splitFirst (c : Char) : List Char → Option (List Char × List Char)
  | [] => none
  | x :: xs =>
    if x = c then some ([], xs)
    else
      match splitFirst c xs with
      | none => none
      | some (a, b) => some (x :: a, b)

/-- Go `strings.Split` on a single-character separator: every maximal
separator-free segment, including empty ones (`split "" = [""]`). -/
def splitOnC (c : Char) : List Char → List (List Char)
  | [] => [[]]
  | x :: xs =>
    if x = c then [] :: splitOnC c xs
    else
      match splitOnC c xs with
      | [] => [[x]]
      | a :: rest => (x :: a) :: rest

/-- Go `strings.SplitN` on a single-character separator with `n ≥ 1`:
at most `n` parts, the last part being the unsplit remainder. -/
def splitN (c : Char) : Nat → List Char → List (List Char)
  | 0, _ => []
  | 1, l => [l]
  | n + 2, l =>
    match splitFirst c l with
    | none => [l]
    | some (a, b) => a :: splitN c (n + 1) b

/-- Lowercase ASCII letter, the `[a-z]` class of the issue-token pattern. -/
def isLowerAZ (c : Char) : Bool := 'a' ≤ c && c ≤ 'z'

/-- ASCII digit, the `[0-9]` class of the issue-token pattern. -/
def isDigit09 (c : Char) : Bool := '0' ≤ c && c ≤ '9'

/-- The `[a-z0-9]` class of the issue-token pattern. -/
def isLowerDigit (c : Char) : Bool := isLowerAZ c || isDigit09 c

/-- Match of the Go regular expression `[a-z]+-[a-z0-9]+(?:\.[0-9]+)?`
anchored at the start of `l` (greedy; no class contains `-` or `.`,
so greedy maximal runs are exact). -/
def matchIssueAt (l : List Char) : Option (List Char) :=
  let r := l.takeWhile isLowerAZ
  if r = [] then none
  else
    match l.drop r.length with
    | '-' :: rest =>
      let d := rest.takeWhile isLowerDigit
      if d = [] then none
      else
        let tail :=
          match rest.drop d.length with
          | '.' :: rest2 =>
            let ds := rest2.takeWhile isDigit09
            if ds = [] then [] else '.' :: ds
          | _ => []
        some (r ++ '-' :: d ++ tail)
    | _ => none

/-- Leftmost match of the issue-token pattern in `l`
(Go `regexp.FindStringSubmatch`, group 1 = the whole pattern). -/
def findIssue : List Char → Option (List Char)
  | [] => none
  | x :: xs =>
    match matchIssueAt (x :: xs) with
    | some m => some m
    | none => findIssue xs

/-- `branchInfo` from mq.go: parsed branch name information. -/
structure branchInfo where
  Branch : String
  Issue : String
  Worker : String
deriving DecidableEq, Repr

/-- The bare-issue-token fallback inside `parseBranchName`: leave the worker
empty and take the leftmost issue-token match, if any. -/
def issueTokenInfo (branch : String) : branchInfo :=
  { Branch := branch
    Issue := (findIssue branch.data).elim "" List.asString
    Worker := "" }

/-- `parseBranchName` from mq.go: `polecat/<worker>/<issue>` when the branch
has the `polecat/` literal and splits into three parts, else the
bare issue-token pattern. -/
def parseBranchName (branch : String) : branchInfo :=
  if hasPrefixL "polecat/".data branch.data then
    match splitN '/' 3 branch.data with
    | [_, p1, p2] => { Branch := branch, Issue := p2.asString, Worker := p1.asString }
    | _ => issueTokenInfo branch
  else issueTokenInfo branch

/-- `beads.MRFields`, the structured merge-request metadata carried inside a
description body (fields as assigned in mq.go and printed by `gt mq status`). -/
structure MRFields where
  Branch : String := ""
  Target : String := ""
  SourceIssue : String := ""
  Worker : String := ""
  Rig : String := ""
  MergeCommit : String := ""
  CloseReason : String := ""
deriving DecidableEq, Repr

/-- The slice of a `beads` source issue that submit reads: its priority. -/
structure SourceIssue where
  Priority : Int
deriving DecidableEq, Repr

/-- The ways `runMqSubmit` rejects a submission before creating a record:
the trunk-branch refusal and the missing-source-issue refusal. -/
inductive SubmitError where
  | trunkBranch
  | issueRequired
deriving DecidableEq, Repr

/-- Modelled from the spec: `beads.FormatMRFields` (the Field Codec encoder,
§4.1), which is not under src/.  Encodes each known field as a
`Key: value` line, one per line, omitting empty values. -/
def fieldLine (key value : String) : List String :=
  if value = "" then [] else [key ++ ": " ++ value]

/-- Modelled from the spec: `beads.FormatMRFields`, see `fieldLine`. -/
def formatMRFields (f : MRFields) : String :=
  String.intercalate "\n"
    (fieldLine "Branch" f.Branch ++ fieldLine "Target" f.Target ++
     fieldLine "Source-Issue" f.SourceIssue ++ fieldLine "Worker" f.Worker ++
     fieldLine "Rig" f.Rig ++ fieldLine "Merge-Commit" f.MergeCommit ++
     fieldLine "Close-Reason" f.CloseReason)

/-- The merge-request record a successful `runMqSubmit` hands to
`bd.Create` (`beads.CreateOptions` plus the structured fields it encodes). -/
structure SubmitResult where
  title : String
  issueType : String
  priority : Int
  description : String
  fields : MRFields
deriving DecidableEq, Repr

/-- `runMqSubmit` from mq.go, as a pure function of its inputs.
`showIssue` stands for the `bd.Show` store lookup (`none` = fetch failed);
`rigName` for the rig detected from the working directory; `currentBranch`
for `git.CurrentBranch`.  An `error` result is raised before the
`bd.Create` call, so no store write happens on it. -/
def runMqSubmit (showIssue : String → Option SourceIssue) (rigName : String)
    (flagBranch currentBranch flagIssue flagEpic : String) (flagPriority : Int) :
    Except SubmitError SubmitResult :=
  let branch := if flagBranch = "" then currentBranch else flagBranch
  if branch = "main" ∨ branch = "master" then .error .trunkBranch
  else
    let info := parseBranchName branch
    let issueID := if flagIssue = "" then info.Issue else flagIssue
    let worker := info.Worker
    if issueID = "" then .error .issueRequired
    else
      let target := if flagEpic = "" then "main" else "integration/" ++ flagEpic
      let priority : Int :=
        if flagPriority ≥ 0 then flagPriority
        else
          match showIssue issueID with
          | none => 2
          | some si => si.Priority
      let fields : MRFields :=
        { Branch := branch, Target := target, SourceIssue := issueID,
          Worker := worker, Rig := rigName }
      .ok { title := "Merge: " ++ issueID
            issueType := "merge-request"
            priority := priority
            description := formatMRFields fields
            fields := fields }

/-- The slice of a `beads.Issue` record that the merge-queue list and
status paths read (fields as used in mq.go; the Go field `Type` is named
`issueType` here because `Type` is reserved in Lean). -/
structure Issue where
  ID : String
  issueType : String
  Status : String
  Priority : Int
  Description : String
  BlockedBy : List String
  BlockedByCount : Int
deriving DecidableEq, Repr

/-- The derived display status computed by `runMQList`: an open issue shows
as `blocked` when it has blocker ids or a positive blocker count, as
`ready` otherwise; any other stored status is shown as is. -/
def displayStatus (i : Issue) : String :=
  if i.Status = "open" then
    if i.BlockedBy.length > 0 ∨ i.BlockedByCount > 0 then "blocked" else "ready"
  else i.Status

/-- The blocker id `runMQList` reports under a listed row: the first entry
of `BlockedBy`, printed only when the display status is `blocked` and the
list is non-empty. -/
def reportedBlocker (i : Issue) : Option String :=
  if displayStatus i = "blocked" ∧ i.BlockedBy.length > 0 then i.BlockedBy.head?
  else none

/-- The known MR field keys of `getDescriptionWithoutMRFields` (mq.go):
the hardcoded lowercase synonym table. -/
def mrKeysTable : List (List Char) :=
  ["branch".data, "target".data,
   "source_issue".data, "source-issue".data, "sourceissue".data,
   "worker".data, "rig".data,
   "merge_commit".data, "merge-commit".data, "mergecommit".data,
   "close_reason".data, "close-reason".data, "closereason".data,
   "type".data]

/-- Membership in the known-key table (the Go `mrKeys[key]` map lookup). -/
def mrKeysB (k : List Char) : Bool := mrKeysTable.contains k

/-- The line-retention loop of `getDescriptionWithoutMRFields`: keep blank
lines; for a non-blank line, skip it exactly when the text before its first
colon, whitespace-trimmed and lowercased, is a known MR field key. -/
def keepLinesGo : List (List Char) → List (List Char)
  | [] => []
  | line :: rest =>
    let trimmed := trimSpaceL line
    if trimmed = [] then line :: keepLinesGo rest
    else
      match splitFirst ':' trimmed with
      | some (k, _) =>
        if mrKeysB (toLowerL (trimSpaceL k)) then keepLinesGo rest
        else line :: keepLinesGo rest
      | none => line :: keepLinesGo rest

/-- `getDescriptionWithoutMRFields` from mq.go: drop recognized MR field
lines, join the rest with newlines and trim surrounding whitespace. -/
def getDescriptionWithoutMRFields (description : String) : String :=
  if description = "" then ""
  else
    (trimSpaceL (List.intercalate ['\n']
      (keepLinesGo (splitOnC '\n' description.data)))).asString

/-- The field-line predicate written after the spec's words (§4.1): a
non-blank line whose key — the text before the first colon, trimmed and
lowercased — is in the synonym table. -/
def isFieldLine (line : List Char) : Bool :=
  let trimmed := trimSpaceL line
  !(trimmed == []) &&
    (match splitFirst ':' trimmed with
     | some (k, _) => mrKeysB (toLowerL (trimSpaceL k))
     | none => false)

/-- The key normalization the spec claims for decoding (§4.1): lowercase,
then strip every `_` and `-` separator. -/
def stripSeps (l : List Char) : List Char := l.filter (fun c => !(c == '_' || c == '-'))

/-- Spec-claimed normal form of a metadata key: trim, lowercase, strip
separators. -/
def normalizeKeySpec (k : List Char) : List Char := stripSeps (toLowerL (trimSpaceL k))

/-- Modelled from the spec: one decoding step of `beads.ParseMRFields`
(Field Codec, §4.1), which is not under src/.  A line is split at its first
colon; the key is trimmed, lowercased and separator-stripped, then matched
against the synonym table; the value is the whitespace-trimmed remainder
(trimming is forced by the spec's round-trip property); the last
occurrence of a key wins; the flag records whether any key matched. -/
def codecStep (acc : MRFields × Bool) (line : List Char) : MRFields × Bool :=
  match splitFirst ':' line with
  | none => acc
  | some (k, v) =>
    let key := normalizeKeySpec k
    let value := (trimSpaceL v).asString
    if key = "branch".data then ({ acc.1 with Branch := value }, true)
    else if key = "target".data then ({ acc.1 with Target := value }, true)
    else if key = "sourceissue".data then ({ acc.1 with SourceIssue := value }, true)
    else if key = "worker".data then ({ acc.1 with Worker := value }, true)
    else if key = "rig".data then ({ acc.1 with Rig := value }, true)
    else if key = "mergecommit".data then ({ acc.1 with MergeCommit := value }, true)
    else if key = "closereason".data then ({ acc.1 with CloseReason := value }, true)
    else acc

/-- Modelled from the spec: `beads.ParseMRFields` (Field Codec decoder,
§4.1), not under src/.  Scans the description line by line with
`codecStep`; yields `none` when no recognized key is present. -/
def parseMRFields (description : String) : Option MRFields :=
  let r := (splitOnC '\n' description.data).foldl codecStep ({}, false)
  if r.2 then some r.1 else none

/-- The target field of a listed issue as `runMQList` reads it: the parsed
`Target`, or the empty string when the description decodes to no fields. -/
def mrTarget (i : Issue) : String :=
  match parseMRFields i.Description with
  | some f => f.Target
  | none => ""

/-- The worker field of a listed issue as `runMQList` reads it. -/
def mrWorker (i : Issue) : String :=
  match parseMRFields i.Description with
  | some f => f.Worker
  | none => ""

/-- Go `strings.EqualFold` on the ASCII range: case-insensitive equality. -/
def equalFold (a b : String) : Bool := toLowerL a.data == toLowerL b.data

/-- The worker filter of `runMQList`: applied only when a worker flag is
given; case-insensitive comparison against the parsed worker. -/
def workerPassB (flagWorker : String) (i : Issue) : Bool :=
  flagWorker == "" || equalFold (mrWorker i) flagWorker

/-- The epic filter of `runMQList`: applied only when an epic flag is
given; keeps issues whose parsed target equals `integration/<epic>`. -/
def epicPassB (flagEpic : String) (i : Issue) : Bool :=
  flagEpic == "" || mrTarget i == "integration/" ++ flagEpic

/-- Modelled from the spec: `beads.List` (Issue/Entity Store CRUD filter,
§6), not under src/.  Returns the issues of the requested type, filtered
by status when a status is requested. -/
def storeList (issues : List Issue) (typeFilter statusFilter : String) : List Issue :=
  issues.filter (fun i => i.issueType == typeFilter && (statusFilter == "" || i.Status == statusFilter))

/-- Modelled from the spec: `beads.Ready` (§4.4 "ready" query), not under
src/.  Returns the open issues with no unresolved blockers. -/
def readyList (issues : List Issue) : List Issue :=
  issues.filter (fun i => i.Status == "open" && i.BlockedBy.isEmpty && !(i.BlockedByCount > 0))

/-- The stored-status filter `runMQList` builds: an explicit status flag
wins; otherwise the default is `open` unless the ready query is used. -/
def listOptsStatus (flagStatus : String) (flagReady : Bool) : String :=
  if flagStatus ≠ "" then flagStatus
  else if ¬flagReady then "open"
  else ""

/-- `runMQList` from mq.go as a pure function of the store contents and the
flags: build the base set (ready query restricted to merge requests, or a
type+status store listing), then apply the worker and epic filters. -/
def runMQList (issues : List Issue) (flagReady : Bool)
    (flagStatus flagWorker flagEpic : String) : List Issue :=
  let base :=
    if flagReady then (readyList issues).filter (fun i => i.issueType == "merge-request")
    else storeList issues "merge-request" (listOptsStatus flagStatus flagReady)
  base.filter (fun i => workerPassB flagWorker i && epicPassB flagEpic i)

/-- A `bd.Show` environment for witnesses: only issue `gt-1` exists, with
priority 3. -/
def showOne : String → Option SourceIssue :=
  fun id => if id = "gt-1" then some ⟨3⟩ else none

/-- Witness issue: an open merge request targeting `integration/ep1`. -/
def issueOpenMR : Issue :=
  { ID := "gt-mr-1", issueType := "merge-request", Status := "open", Priority := 1,
    Description := "Target: integration/ep1\nWorker: nix", BlockedBy := [], BlockedByCount := 0 }

/-- Witness issue: a closed merge request. -/
def issueClosedMR : Issue :=
  { ID := "gt-mr-2", issueType := "merge-request", Status := "closed", Priority := 2,
    Description := "Target: main", BlockedBy := [], BlockedByCount := 0 }

/-- Witness issue: an open merge request blocked by `gt-mr-1`. -/
def issueBlockedMR : Issue :=
  { ID := "gt-mr-3", issueType := "merge-request", Status := "open", Priority := 1,
    Description := "Target: main", BlockedBy := ["gt-mr-1"], BlockedByCount := 1 }

/-- The record a priority-inheriting submit of `polecat/nix/gt-1` creates
under `showOne` (used to witness the priority claim). -/
def resFive : SubmitResult :=
  { title := "Merge: gt-1", issueType := "merge-request", priority := 3,
    description := formatMRFields
      { Branch := "polecat/nix/gt-1", Target := "main", SourceIssue := "gt-1",
        Worker := "nix", Rig := "g" },
    fields := { Branch := "polecat/nix/gt-1", Target := "main", SourceIssue := "gt-1",
                Worker := "nix", Rig := "g" } }

/-- The record an epic-targeted submit of `polecat/nix/gt-1` creates (used
to witness the target claim). -/
def resNine : SubmitResult :=
  { title := "Merge: gt-1", issueType := "merge-request", priority := 2,
    description := formatMRFields
      { Branch := "polecat/nix/gt-1", Target := "integration/ep1", SourceIssue := "gt-1",
        Worker := "nix", Rig := "g" },
    fields := { Branch := "polecat/nix/gt-1", Target := "integration/ep1",
                SourceIssue := "gt-1", Worker := "nix", Rig := "g" } }

/-! Helper lemmas about the character-list utilities. -/

theorem splitFirst_eq_none (c : Char) (l : List Char) (h : c ∉ l) :
    splitFirst c l = none := by
  induction l with
  | nil => rfl
  | cons x xs ih =>
    have hx : x ≠ c := by rintro rfl; exact h (List.mem_cons_self _ _)
    simp only [splitFirst, if_neg hx, ih (fun hm => h (List.mem_cons_of_mem _ hm))]

theorem splitFirst_append (c : Char) (xs ys : List Char) (h : c ∉ xs) :
    splitFirst c (xs ++ c :: ys) = some (xs, ys) := by
  induction xs with
  | nil => simp [splitFirst]
  | cons x l ih =>
    have hx : x ≠ c := by rintro rfl; exact h (List.mem_cons_self _ _)
    have ih2 := ih (fun hm => h (List.mem_cons_of_mem _ hm))
    show splitFirst c (x :: (l ++ c :: ys)) = some (x :: l, ys)
    rw [splitFirst, if_neg hx, ih2]

theorem splitOnC_not_mem (c : Char) (l : List Char) (h : c ∉ l) :
    splitOnC c l = [l] := by
  induction l with
  | nil => rfl
  | cons x xs ih =>
    have hx : x ≠ c := by rintro rfl; exact h (List.mem_cons_self _ _)
    simp only [splitOnC, if_neg hx, ih (fun hm => h (List.mem_cons_of_mem _ hm))]

theorem hasPrefixL_self_append (p r : List Char) : hasPrefixL p (p ++ r) = true := by
  induction p with
  | nil => rfl
  | cons x xs ih => simp [hasPrefixL, ih]

theorem splitN_three (c : Char) (a b d : List Char) (ha : c ∉ a) (hb : c ∉ b) :
    splitN c 3 (a ++ c :: (b ++ c :: d)) = [a, b, d] := by
  simp only [splitN, splitFirst_append c a _ ha, splitFirst_append c b _ hb]

theorem trimLeftW_cons (x : Char) (l : List Char) (h : isSpaceChar x = false) :
    trimLeftW (x :: l) = x :: l := by
  simp [trimLeftW, List.dropWhile_cons, h]

theorem trimRightW_concat (x : Char) (l : List Char) (h : isSpaceChar x = false) :
    trimRightW (l ++ [x]) = l ++ [x] := by
  simp [trimRightW, List.dropWhile_cons, h]

theorem trimLeftW_eq_self (l : List Char) (h : ∀ c ∈ l, isSpaceChar c = false) :
    trimLeftW l = l := by
  cases l with
  | nil => rfl
  | cons x xs => exact trimLeftW_cons x xs (h x (List.mem_cons_self _ _))

theorem trimRightW_eq_self (l : List Char) (h : ∀ c ∈ l, isSpaceChar c = false) :
    trimRightW l = l := by
  have hdw : l.reverse.dropWhile isSpaceChar = l.reverse := by
    cases hl : l.reverse with
    | nil => rfl
    | cons x xs =>
      have hx : x ∈ l := by
        have hm : x ∈ l.reverse := by rw [hl]; exact List.mem_cons_self _ _
        exact List.mem_reverse.mp hm
      rw [List.dropWhile_cons, h x hx]
      simp
  rw [trimRightW, hdw, List.reverse_reverse]

theorem trimSpaceL_eq_self (l : List Char) (h : ∀ c ∈ l, isSpaceChar c = false) :
    trimSpaceL l = l := by
  unfold trimSpaceL
  rw [trimLeftW_eq_self l h, trimRightW_eq_self l h]

theorem keepLinesGo_eq_filter (ls : List (List Char)) :
    keepLinesGo ls = ls.filter (fun l => !isFieldLine l) := by
  induction ls with
  | nil => rfl
  | cons line rest ih =>
    have hstep : keepLinesGo (line :: rest) =
        if isFieldLine line = true then keepLinesGo rest else line :: keepLinesGo rest := by
      by_cases h1 : trimSpaceL line = []
      · simp [keepLinesGo, isFieldLine, h1]
      · by_cases hex : ∃ kv, splitFirst ':' (trimSpaceL line) = some kv
        · obtain ⟨⟨k, v⟩, hsf⟩ := hex
          by_cases h3 : mrKeysB (toLowerL (trimSpaceL k)) = true <;>
            simp [keepLinesGo, isFieldLine, hsf, h1, h3]
        · have hsf : splitFirst ':' (trimSpaceL line) = none := by
            cases hx : splitFirst ':' (trimSpaceL line) with
            | none => rfl
            | some kv => exact absurd ⟨kv, hx⟩ hex
          simp [keepLinesGo, isFieldLine, hsf, h1]
    rw [hstep, List.filter_cons, ih]
    by_cases hf : isFieldLine line = true <;> simp [hf]

theorem polecat_branch_data (w i : String) :
    ("polecat/" ++ w ++ "/" ++ i).data = "polecat".data ++ '/' :: (w.data ++ '/' :: i.data) := by
  simp only [String.data_append, List.append_assoc]
  rfl

theorem parseBranchName_polecat (w i : String) (hw : '/' ∉ w.data) :
    parseBranchName ("polecat/" ++ w ++ "/" ++ i) =
      { Branch := "polecat/" ++ w ++ "/" ++ i, Issue := i, Worker := w } := by
  have hp : hasPrefixL "polecat/".data ("polecat/" ++ w ++ "/" ++ i).data = true := by
    rw [polecat_branch_data]
    exact hasPrefixL_self_append "polecat/".data (w.data ++ '/' :: i.data)
  have hsplit : splitN '/' 3 ("polecat/" ++ w ++ "/" ++ i).data =
      ["polecat".data, w.data, i.data] := by
    rw [polecat_branch_data]
    exact splitN_three '/' "polecat".data w.data i.data (by decide) hw
  unfold parseBranchName
  rw [if_pos hp, hsplit]
  rfl

/-! Claim theorems. -/

/-- C1 counterexample: submitting branch `worker/nix/gt-42` with no explicit
issue creates a merge request whose `source_issue` is `gt-42` but whose
`worker` is empty, not `nix` — the `worker/<worker>/<issue>` pattern of the
claim is not recognized by the code (which recognizes `polecat/...`), so the
bare issue-token fallback applies and the worker segment is lost. -/
theorem C1_counterexample :
    ((runMqSubmit (fun _ => none) "gastown" "worker/nix/gt-42" "" "" "" (-1)).toOption.map
      (fun r => (r.fields.SourceIssue, r.fields.Worker))) = some ("gt-42", "") ∧
    ("" : String) ≠ "nix" := ⟨rfl, by decide⟩

/-- C1 (amended): the branch pattern recognized by submit is
`polecat/<worker>/<issue>`: for a submit invocation with no explicit issue
where the branch is `polecat/` followed by a slash-free worker segment and a
non-empty issue segment, the created merge request has `source_issue` equal
to the issue segment and `worker` equal to the worker segment. -/
theorem C1_amended (showIssue : String → Option SourceIssue) (rigName cb fe : String)
    (fp : Int) (w i : String) (hw : '/' ∉ w.data) (hi : i ≠ "") :
    ∃ res, runMqSubmit showIssue rigName ("polecat/" ++ w ++ "/" ++ i) cb "" fe fp = .ok res ∧
      res.fields.SourceIssue = i ∧ res.fields.Worker = w := by
  have hparse := parseBranchName_polecat w i hw
  have hb0 : ("polecat/" ++ w ++ "/" ++ i) ≠ "" := by
    intro h
    have h2 := congrArg String.data h
    rw [polecat_branch_data] at h2
    simp at h2
  have hmain : ("polecat/" ++ w ++ "/" ++ i) ≠ "main" := by
    intro h
    have h2 := congrArg String.data h
    rw [polecat_branch_data] at h2
    have h3 : ('p' : Char) = 'm' := congrArg (fun l => l.headD ' ') h2
    exact absurd h3 (by decide)
  have hmaster : ("polecat/" ++ w ++ "/" ++ i) ≠ "master" := by
    intro h
    have h2 := congrArg String.data h
    rw [polecat_branch_data] at h2
    have h3 : ('p' : Char) = 'm' := congrArg (fun l => l.headD ' ') h2
    exact absurd h3 (by decide)
  simp only [runMqSubmit, if_neg hb0]
  rw [if_neg (by rintro (h | h); exacts [hmain h, hmaster h])]
  simp only [hparse, if_true]
  rw [if_neg hi]
  exact ⟨_, rfl, rfl, rfl⟩

/-- C1 witness: the amended pattern at the concrete branch
`polecat/nix/gt-42`. -/
theorem C1_witness :
    ∃ res, runMqSubmit (fun _ => none) "gastown" ("polecat/" ++ "nix" ++ "/" ++ "gt-42")
        "" "" "" (-1) = .ok res ∧
      res.fields.SourceIssue = "gt-42" ∧ res.fields.Worker = "nix" :=
  C1_amended (fun _ => none) "gastown" "" "" (-1) "nix" "gt-42" (by decide) (by decide)

/-- C2: for a listed merge request whose blocker count agrees with its
blocker list and whose stored status is one of open, in_progress or closed,
the derived display status is `ready` exactly when the stored status is open
with no blockers, `blocked` exactly when it is open with at least one
blocker (and then the first blocker's id is the one reported), and equals
the stored status otherwise. -/
theorem C2_display_status (i : Issue)
    (hwf : i.BlockedByCount = (i.BlockedBy.length : Int))
    (hs : i.Status = "open" ∨ i.Status = "in_progress" ∨ i.Status = "closed") :
    (displayStatus i = "ready" ↔ (i.Status = "open" ∧ i.BlockedBy = [])) ∧
    (displayStatus i = "blocked" ↔ (i.Status = "open" ∧ i.BlockedBy ≠ [])) ∧
    ((i.Status = "in_progress" ∨ i.Status = "closed") → displayStatus i = i.Status) ∧
    (displayStatus i = "blocked" →
      reportedBlocker i = i.BlockedBy.head? ∧ i.BlockedBy.head? ≠ none) := by
  have hcond : (i.BlockedBy.length > 0 ∨ i.BlockedByCount > 0) ↔ i.BlockedBy ≠ [] := by
    rw [hwf]
    constructor
    · rintro (hl | hl)
      · exact List.ne_nil_of_length_pos hl
      · exact List.ne_nil_of_length_pos (by exact_mod_cast hl)
    · intro hne
      exact Or.inl (List.length_pos.mpr hne)
  rcases hs with h | h | h
  · by_cases hb : i.BlockedBy = []
    · have hd : displayStatus i = "ready" := by
        have : ¬(i.BlockedBy.length > 0 ∨ i.BlockedByCount > 0) := by
          rw [hcond]; simp [hb]
        simp [displayStatus, h, this]
      refine ⟨?_, ?_, ?_, ?_⟩
      · simp [hd, h, hb]
      · simp [hd, hb]
      · rintro (hx | hx) <;> rw [h] at hx <;> exact absurd hx (by decide)
      · intro hx; rw [hd] at hx; exact absurd hx (by decide)
    · have hd : displayStatus i = "blocked" := by
        have : i.BlockedBy.length > 0 ∨ i.BlockedByCount > 0 := hcond.mpr hb
        simp [displayStatus, h, this]
      refine ⟨?_, ?_, ?_, ?_⟩
      · simp [hd, hb]
      · simp [hd, h, hb]
      · rintro (hx | hx) <;> rw [h] at hx <;> exact absurd hx (by decide)
      · intro _
        have hlen : i.BlockedBy.length > 0 := List.length_pos.mpr hb
        constructor
        · simp [reportedBlocker, hd, hlen]
        · simp [hb]
  · have hd : displayStatus i = "in_progress" := by simp [displayStatus, h]
    refine ⟨?_, ?_, ?_, ?_⟩
    · constructor
      · intro hx; rw [hd] at hx; exact absurd hx (by decide)
      · rintro ⟨hx, _⟩; rw [h] at hx; exact absurd hx (by decide)
    · constructor
      · intro hx; rw [hd] at hx; exact absurd hx (by decide)
      · rintro ⟨hx, _⟩; rw [h] at hx; exact absurd hx (by decide)
    · intro _; rw [hd, h]
    · intro hx; rw [hd] at hx; exact absurd hx (by decide)
  · have hd : displayStatus i = "closed" := by simp [displayStatus, h]
    refine ⟨?_, ?_, ?_, ?_⟩
    · constructor
      · intro hx; rw [hd] at hx; exact absurd hx (by decide)
      · rintro ⟨hx, _⟩; rw [h] at hx; exact absurd hx (by decide)
    · constructor
      · intro hx; rw [hd] at hx; exact absurd hx (by decide)
      · rintro ⟨hx, _⟩; rw [h] at hx; exact absurd hx (by decide)
    · intro _; rw [hd, h]
    · intro hx; rw [hd] at hx; exact absurd hx (by decide)

/-- C2 witness: a concrete open merge request with one blocker displays as
blocked and reports its first blocker. -/
theorem C2_witness :
    displayStatus issueBlockedMR = "blocked" ∧
    reportedBlocker issueBlockedMR = issueBlockedMR.BlockedBy.head? := by
  have h := C2_display_status issueBlockedMR (by decide) (Or.inl rfl)
  have hb : displayStatus issueBlockedMR = "blocked" := h.2.1.mpr ⟨rfl, by decide⟩
  exact ⟨hb, (h.2.2.2 hb).1⟩

/-- C6 (code check at the failing input): submit accepts an explicit
priority of 9 and creates the merge request with priority 9, outside the
documented 0–4 range — no range validation is performed. -/
theorem C6_priority_unchecked :
    ((runMqSubmit (fun _ => none) "gastown" "polecat/nix/gt-1" "" "" "" 9).toOption.map
      (fun r => r.priority)) = some 9 ∧ ¬((9 : Int) ≤ 4) := ⟨rfl, by decide⟩

/-- C7 counterexample: on branch `main` with no explicit issue, no issue
token is extractable and submit does fail — but with the trunk-branch
refusal, not the IssueRequired error, so the claimed equivalence between
failing with IssueRequired and "no explicit issue and no token" is false. -/
theorem C7_counterexample :
    (parseBranchName "main").Issue = "" ∧
    runMqSubmit (fun _ => none) "gastown" "main" "" "" "" (-1) = .error .trunkBranch ∧
    SubmitError.trunkBranch ≠ SubmitError.issueRequired := ⟨rfl, rfl, by decide⟩

/-- C3 counterexample: under the claimed lowercase-and-strip-separators
normalization the key `source_-issue` is a separator variant of
`source_issue` (it normalizes to `sourceissue`), yet the code does not
recognize it — the line is kept — while the plain `source-issue` variant is
recognized and removed. -/
theorem C3_counterexample :
    normalizeKeySpec "source_-issue".data = "sourceissue".data ∧
    getDescriptionWithoutMRFields "source_-issue: x" = "source_-issue: x" ∧
    getDescriptionWithoutMRFields "source-issue: x" = "" := ⟨by decide, rfl, rfl⟩

/-- C3 (amended): a description line is recognized as a metadata field
exactly when its key — the text before the first colon, whitespace-trimmed
and lowercased (no separator stripping) — is in the fixed synonym table,
which lists the underscore, hyphen and concatenated spellings of each
field name; other separator mixtures are not recognized. -/
theorem C3_amended (k : String) (hk0 : k ≠ "")
    (hks : ∀ c ∈ k.data, isSpaceChar c = false)
    (hkc : ':' ∉ k.data) :
    (getDescriptionWithoutMRFields (k ++ ": x") = "" ↔ mrKeysB (toLowerL k.data) = true) := by
  have hkd : k.data ≠ [] := by
    intro h
    apply hk0
    cases k
    simp only at h
    simp [h]
  have hdata : (k ++ ": x").data = k.data ++ [':', ' ', 'x'] := by
    rw [String.data_append]
  have hne : (k ++ ": x") ≠ "" := by
    intro h
    have h2 := congrArg String.data h
    rw [hdata] at h2
    simp at h2
  have hL0 : k.data ++ [':', ' ', 'x'] ≠ [] := by simp
  have hnl : '\n' ∉ k.data ++ [':', ' ', 'x'] := by
    intro hm
    rcases List.mem_append.mp hm with hm1 | hm1
    · have h2 := hks '\n' hm1
      simp [isSpaceChar] at h2
    · simp at hm1
  have hsplit : splitOnC '\n' (k.data ++ [':', ' ', 'x']) = [k.data ++ [':', ' ', 'x']] :=
    splitOnC_not_mem '\n' _ hnl
  have htrim : trimSpaceL (k.data ++ [':', ' ', 'x']) = k.data ++ [':', ' ', 'x'] := by
    obtain ⟨c0, k', hk'⟩ : ∃ c0 k', k.data = c0 :: k' := by
      cases hc : k.data with
      | nil => exact absurd hc hkd
      | cons a b => exact ⟨a, b, rfl⟩
    have hc0 : isSpaceChar c0 = false := hks c0 (by rw [hk']; exact List.mem_cons_self _ _)
    rw [hk']
    show trimSpaceL (c0 :: (k' ++ [':', ' ', 'x'])) = _
    unfold trimSpaceL
    rw [trimLeftW_cons _ _ hc0]
    have hre : c0 :: (k' ++ [':', ' ', 'x']) = (c0 :: (k' ++ [':', ' '])) ++ ['x'] := by simp
    rw [hre, trimRightW_concat 'x' _ (by decide)]
    simp
  have hsf : splitFirst ':' (k.data ++ [':', ' ', 'x']) = some (k.data, [' ', 'x']) :=
    splitFirst_append ':' k.data [' ', 'x'] hkc
  have hkey : trimSpaceL k.data = k.data := trimSpaceL_eq_self _ hks
  rw [getDescriptionWithoutMRFields, if_neg hne, hdata, hsplit]
  by_cases hm : mrKeysB (toLowerL k.data) = true
  · have hkeep : keepLinesGo [k.data ++ [':', ' ', 'x']] = [] := by
      simp [keepLinesGo, htrim, hsf, hkey, hm, hL0]
    rw [hkeep]
    exact iff_of_true rfl hm
  · have hkeep : keepLinesGo [k.data ++ [':', ' ', 'x']] =
        [k.data ++ [':', ' ', 'x']] := by
      simp [keepLinesGo, htrim, hsf, hkey, hm, hL0]
    rw [hkeep]
    have hint : List.intercalate ['\n'] [k.data ++ [':', ' ', 'x']] =
        k.data ++ [':', ' ', 'x'] := by
      simp [List.intercalate]
    rw [hint, htrim]
    exact iff_of_false (fun h => hL0 (congrArg String.data h)) hm

/-- C3 witness: the hyphen spelling `source-issue` is recognized. -/
theorem C3_witness :
    (getDescriptionWithoutMRFields ("source-issue" ++ ": x") = "" ↔
      mrKeysB (toLowerL "source-issue".data) = true) :=
  C3_amended "source-issue" (by decide) (by decide) (by decide)

/-- C4 counterexample: a single unrecognized line with leading whitespace is
not kept verbatim — the final whitespace trim also strips the retained first
line's indentation, not only leading and trailing blank runs. -/
theorem C4_counterexample :
    getDescriptionWithoutMRFields "  hello" = "hello" ∧
    ("hello" : String) ≠ "  hello" := ⟨rfl, by decide⟩

/-- C4 (amended): extracting the notes keeps exactly the lines that are not
recognized metadata field lines, verbatim and in their original order (the
kept lines form a sublist of the original lines, and blank lines are never
field lines, so interior blanks are kept), joins them with newlines, and
trims leading and trailing whitespace from the joined string — which removes
leading and trailing blank runs and also the outer whitespace of the first
and last kept lines. -/
theorem C4_amended (d : String) :
    getDescriptionWithoutMRFields d =
      (trimSpaceL (List.intercalate ['\n']
        ((splitOnC '\n' d.data).filter (fun l => !isFieldLine l)))).asString ∧
    ((splitOnC '\n' d.data).filter (fun l => !isFieldLine l)).Sublist (splitOnC '\n' d.data) ∧
    (∀ l : List Char, trimSpaceL l = [] → isFieldLine l = false) := by
  refine ⟨?_, List.filter_sublist _, ?_⟩
  · by_cases hd : d = ""
    · subst hd
      rfl
    · rw [getDescriptionWithoutMRFields, if_neg hd, keepLinesGo_eq_filter]
  · intro l hl
    simp [isFieldLine, hl]

/-- C4 witness: a blank (all-space) line is not a field line. -/
theorem C4_witness :
    trimSpaceL [' '] = [] ∧ isFieldLine [' '] = false :=
  ⟨by decide, (C4_amended "x").2.2 [' '] (by decide)⟩

/-- C5: a merge request created by submit carries the explicit priority when
a non-negative one is supplied; otherwise it carries the source issue's
priority when the issue can be fetched, and the fixed middle priority 2 when
the fetch fails. -/
theorem C5_priority (showIssue : String → Option SourceIssue)
    (rigName fb cb fi fe : String) (fp : Int) (res : SubmitResult)
    (h : runMqSubmit showIssue rigName fb cb fi fe fp = .ok res) :
    (0 ≤ fp → res.priority = fp) ∧
    (fp < 0 → ∀ si, showIssue res.fields.SourceIssue = some si → res.priority = si.Priority) ∧
    (fp < 0 → showIssue res.fields.SourceIssue = none → res.priority = 2) := by
  simp only [runMqSubmit] at h
  by_cases h1 : (if fb = "" then cb else fb) = "main" ∨ (if fb = "" then cb else fb) = "master"
  · rw [if_pos h1] at h
    exact absurd h (by simp)
  · rw [if_neg h1] at h
    by_cases h2 : (if fi = "" then (parseBranchName (if fb = "" then cb else fb)).Issue
        else fi) = ""
    · rw [if_pos h2] at h
      exact absurd h (by simp)
    · rw [if_neg h2] at h
      rw [Except.ok.injEq] at h
      subst h
      refine ⟨?_, ?_, ?_⟩
      · intro h0
        dsimp only
        rw [if_pos h0]
      · intro hneg si hsi
        have hnot : ¬(fp ≥ 0) := by omega
        dsimp only at hsi ⊢
        rw [if_neg hnot, hsi]
      · intro hneg hsi
        have hnot : ¬(fp ≥ 0) := by omega
        dsimp only at hsi ⊢
        rw [if_neg hnot, hsi]

/-- C5 witness: with priority unspecified, submitting `polecat/nix/gt-1`
under a store where `gt-1` has priority 3 creates the merge request with
priority 3. -/
theorem C5_witness :
    runMqSubmit showOne "g" "polecat/nix/gt-1" "" "" "" (-1) = .ok resFive ∧
    resFive.priority = 3 :=
  ⟨by rfl, (C5_priority showOne "g" "polecat/nix/gt-1" "" "" "" (-1) resFive (by rfl)).2.1
    (by decide) ⟨3⟩ (by rfl)⟩

/-- C7 (amended): for a submit whose resolved branch is not one of the trunk
branches `main`/`master`, submit fails with the IssueRequired error exactly
when no explicit source issue is supplied and no issue token can be parsed
from the branch name; the failure is raised before the store create call, so
no merge request is written. -/
theorem C7_issue_required (showIssue : String → Option SourceIssue)
    (rigName fb cb fi fe : String) (fp : Int)
    (h1 : (if fb = "" then cb else fb) ≠ "main")
    (h2 : (if fb = "" then cb else fb) ≠ "master") :
    (runMqSubmit showIssue rigName fb cb fi fe fp = .error .issueRequired ↔
      (fi = "" ∧ (parseBranchName (if fb = "" then cb else fb)).Issue = "")) := by
  simp only [runMqSubmit]
  rw [if_neg (by rintro (h | h); exacts [h1 h, h2 h])]
  by_cases hfi : fi = ""
  · subst hfi
    by_cases hp : (parseBranchName (if fb = "" then cb else fb)).Issue = ""
    · rw [if_pos (by simp [hp])]
      simp [hp]
    · rw [if_neg (by simp [hp])]
      simp [hp]
  · rw [if_neg (by simp [hfi])]
    simp [hfi]

/-- C7 witness: on the non-trunk branch `nobranch` with no explicit issue,
no token is parseable and submit fails with IssueRequired. -/
theorem C7_witness :
    (runMqSubmit (fun _ => none) "g" "nobranch" "" "" "" (-1) = .error .issueRequired ↔
      (("" : String) = "" ∧
        (parseBranchName (if ("nobranch" : String) = "" then "" else "nobranch")).Issue = "")) :=
  C7_issue_required (fun _ => none) "g" "nobranch" "" "" "" (-1) (by decide) (by decide)

/-- C8: submit fails with the trunk-branch refusal exactly when the resolved
source branch is `main` or `master`; for every other branch the result is
never the trunk error (the check passes), and the refusal precedes any
record creation. -/
theorem C8_trunk_refusal (showIssue : String → Option SourceIssue)
    (rigName fb cb fi fe : String) (fp : Int) :
    (runMqSubmit showIssue rigName fb cb fi fe fp = .error .trunkBranch ↔
      ((if fb = "" then cb else fb) = "main" ∨ (if fb = "" then cb else fb) = "master")) := by
  simp only [runMqSubmit]
  by_cases h1 : (if fb = "" then cb else fb) = "main" ∨ (if fb = "" then cb else fb) = "master"
  · rw [if_pos h1]
    simp [h1]
  · rw [if_neg h1]
    by_cases h2 : (if fi = "" then (parseBranchName (if fb = "" then cb else fb)).Issue
        else fi) = ""
    · rw [if_pos h2]
      simp [h1]
    · rw [if_neg h2]
      simp [h1]

/-- C9: submit sets the target branch to `main` when no epic is given and to
`integration/<epic>` when an epic is given; and the list operation's epic
filter keeps exactly the members of the epic-unfiltered listing whose parsed
target field equals `integration/<epic>`. -/
theorem C9_target_epic (showIssue : String → Option SourceIssue)
    (rigName fb cb fi fe : String) (fp : Int) (res : SubmitResult)
    (issues : List Issue) (flagReady : Bool) (fs fw e : String)
    (hok : runMqSubmit showIssue rigName fb cb fi fe fp = .ok res) (he : e ≠ "") :
    ((fe = "" → res.fields.Target = "main") ∧
     (fe ≠ "" → res.fields.Target = "integration/" ++ fe)) ∧
    (∀ i, i ∈ runMQList issues flagReady fs fw e ↔
      (i ∈ runMQList issues flagReady fs fw "" ∧ mrTarget i = "integration/" ++ e)) := by
  constructor
  · simp only [runMqSubmit] at hok
    by_cases h1 : (if fb = "" then cb else fb) = "main" ∨ (if fb = "" then cb else fb) = "master"
    · rw [if_pos h1] at hok
      exact absurd hok (by simp)
    · rw [if_neg h1] at hok
      by_cases h2 : (if fi = "" then (parseBranchName (if fb = "" then cb else fb)).Issue
          else fi) = ""
      · rw [if_pos h2] at hok
        exact absurd hok (by simp)
      · rw [if_neg h2] at hok
        rw [Except.ok.injEq] at hok
        subst hok
        constructor
        · intro hfe
          dsimp only
          rw [if_pos hfe]
        · intro hfe
          dsimp only
          rw [if_neg hfe]
  · intro i
    have hpe : ∀ j : Issue, epicPassB e j = (mrTarget j == "integration/" ++ e) := by
      intro j
      simp [epicPassB, he]
    have hpe0 : ∀ j : Issue, epicPassB "" j = true := by
      intro j
      simp [epicPassB]
    simp [runMQList, List.mem_filter, hpe, hpe0, and_assoc]

/-- C9 witness: an epic-targeted submit creates target `integration/ep1`,
and the concrete epic filter keeps exactly the matching issue. -/
theorem C9_witness :
    resNine.fields.Target = "integration/ep1" ∧
    (issueOpenMR ∈ runMQList [issueOpenMR, issueClosedMR] false "" "" "ep1" ↔
      (issueOpenMR ∈ runMQList [issueOpenMR, issueClosedMR] false "" "" "" ∧
       mrTarget issueOpenMR = "integration/ep1")) :=
  ⟨(C9_target_epic (fun _ => none) "g" "polecat/nix/gt-1" "" "" "ep1" (-1) resNine
      [issueOpenMR, issueClosedMR] false "" "" "ep1" (by rfl) (by decide)).1.2 (by decide),
   (C9_target_epic (fun _ => none) "g" "polecat/nix/gt-1" "" "" "ep1" (-1) resNine
      [issueOpenMR, issueClosedMR] false "" "" "ep1" (by rfl) (by decide)).2 issueOpenMR⟩

/-- C10: with neither a status filter nor the ready flag, the list operation
returns exactly the stored merge requests whose status is `open` (and which
pass the worker and epic filters), so closed history records are excluded by
default; an explicit status filter returns exactly the merge requests with
that status, so they remain queryable. -/
theorem C10_default_open (issues : List Issue) (fw fe : String) :
    (∀ i, i ∈ runMQList issues false "" fw fe ↔
      (i ∈ issues ∧ i.issueType = "merge-request" ∧ i.Status = "open" ∧
       workerPassB fw i = true ∧ epicPassB fe i = true)) ∧
    (∀ s, s ≠ "" → ∀ i, i ∈ runMQList issues false s fw fe ↔
      (i ∈ issues ∧ i.issueType = "merge-request" ∧ i.Status = s ∧
       workerPassB fw i = true ∧ epicPassB fe i = true)) := by
  have hls0 : listOptsStatus "" false = "open" := rfl
  constructor
  · intro i
    simp only [runMQList, storeList, hls0, List.mem_filter, and_assoc]
    simp
    tauto
  · intro s hs i
    have hls : listOptsStatus s false = s := by
      simp [listOptsStatus, hs]
    simp only [runMQList, storeList, hls, List.mem_filter, and_assoc]
    simp [hs]
    tauto

/-- C10 witness: in a concrete store with one open and one closed merge
request, the open one is in the default listing and the closed one is
reachable with the explicit closed filter. -/
theorem C10_witness :
    (issueOpenMR.issueType = "merge-request" ∧ issueOpenMR.Status = "open") ∧
    issueClosedMR.Status = "closed" := by
  have h := C10_default_open [issueOpenMR, issueClosedMR] "" ""
  have h1 := (h.1 issueOpenMR).mp (by decide)
  have h2 := (h.2 "closed" (by decide) issueClosedMR).mp (by decide)
  exact ⟨⟨h1.2.1, h1.2.2.1⟩, h2.2.2.1⟩

end Gastown
